import Mathlib

/-!
Verification of the leakage-aware feature-construction pipeline of the
rdu-temp-forecast-14day repository.

The embedding models:
* `src/src/data/api_xgb_data.py` — year chunking (`make_year_chunks`), the
  `__main__` normalization (concat / sort / drop duplicate timestamps) and
  its sanity checks;
* `src/src/data/build_features.py` — `add_time_features`, `check_hourly`,
  `build_train_features`, `build_infer_features`;
* `src/src/data/test_truth.py` — `get_lag_value`, `get_rolling_stats`.

Timestamps (pandas `Timestamp` at hour resolution, naive local time) are
modelled by the record `DT` of calendar components; `absMin` converts to an
absolute minute count, which realizes the pandas linear order and hour
deltas.  Observed temperatures (float64 in the source) are modelled as `ℚ`.
Where the source computes a standard deviation (an irrational square root)
the embedding tracks the radicand (the corresponding variance, with the
source's ddof), which determines the standard deviation and has the same
missing/present behaviour.
-/

/-- A naive local timestamp: calendar components as pandas exposes them
(`dt.year`, `dt.month`, `dt.day`, `dt.hour`, `dt.minute`). -/
structure DT where
  year : ℕ
  month : ℕ
  day : ℕ
  hour : ℕ
  minute : ℕ
deriving DecidableEq, Repr

/-- Gregorian leap-year rule. -/
def isLeap (y : ℕ) : Bool :=
  (y % 4 == 0 && y % 100 != 0) || (y % 400 == 0)

/-- Number of days of month `m` (1-based) in year `y`. -/
def daysInMonth (y m : ℕ) : ℕ :=
  if m = 2 then (if isLeap y then 29 else 28)
  else if m = 4 ∨ m = 6 ∨ m = 9 ∨ m = 11 then 30
  else 31

/-- Days in the months strictly before month `m` of year `y` (1-based). -/
def monthPrefixDays (y m : ℕ) : ℕ :=
  (match m with
   | 1 => 0 | 2 => 31 | 3 => 59 | 4 => 90 | 5 => 120 | 6 => 151
   | 7 => 181 | 8 => 212 | 9 => 243 | 10 => 273 | 11 => 304 | _ => 334)
  + (if 3 ≤ m ∧ isLeap y then 1 else 0)

/-- Day of year, 1-based (pandas `dt.dayofyear`). -/
def dayOfYear (t : DT) : ℕ := monthPrefixDays t.year t.month + t.day

/-- Number of days of year `y`. -/
def daysInYear (y : ℕ) : ℕ := if isLeap y then 366 else 365

/-- Number of leap years strictly before year `y` (year 0 counts as leap). -/
def leapsBefore (y : ℕ) : ℕ := (y + 3) / 4 - (y + 99) / 100 + (y + 399) / 400

/-- Absolute day number of a timestamp's date (day 0 = 0000-01-01). -/
def absDay (t : DT) : ℕ := 365 * t.year + leapsBefore t.year + dayOfYear t - 1

/-- Absolute minute count of a timestamp; realizes the pandas linear order on
naive timestamps and timedelta arithmetic. -/
def absMin (t : DT) : ℕ := (absDay t * 24 + t.hour) * 60 + t.minute

/-- `a ≤ b` on pandas timestamps. -/
def tle (a b : DT) : Bool := absMin a ≤ absMin b

/-- `a < b` on pandas timestamps. -/
def tlt (a b : DT) : Bool := absMin a < absMin b

/-- The calendar components are in range (every actual pandas timestamp
satisfies this; pandas keeps components canonical). -/
def DT.Valid (t : DT) : Prop :=
  1 ≤ t.month ∧ t.month ≤ 12 ∧ 1 ≤ t.day ∧ t.day ≤ daysInMonth t.year t.month ∧
  t.hour < 24 ∧ t.minute < 60

instance (t : DT) : Decidable t.Valid := by
  unfold DT.Valid; infer_instance

/-- Successor hour (`t + Timedelta(hours=1)`). -/
def addHour (t : DT) : DT :=
  if t.hour + 1 < 24 then { t with hour := t.hour + 1 }
  else if t.day + 1 ≤ daysInMonth t.year t.month then
    { t with hour := 0, day := t.day + 1 }
  else if t.month + 1 ≤ 12 then
    { t with hour := 0, day := 1, month := t.month + 1 }
  else ⟨t.year + 1, 1, 1, 0, t.minute⟩

/-- Predecessor hour (`t - Timedelta(hours=1)`). -/
def predHour (t : DT) : DT :=
  if 1 ≤ t.hour then { t with hour := t.hour - 1 }
  else if 2 ≤ t.day then { t with hour := 23, day := t.day - 1 }
  else if 2 ≤ t.month then
    { t with hour := 23, day := daysInMonth t.year (t.month - 1), month := t.month - 1 }
  else { t with year := t.year - 1, month := 12, day := 31, hour := 23 }

/-- `t + Timedelta(hours=n)`. -/
def addHours (n : ℕ) (t : DT) : DT := addHour^[n] t

/-- `t - Timedelta(hours=n)`. -/
def subHours (n : ℕ) (t : DT) : DT := predHour^[n] t

/-- pandas `dt.dayofweek` (Monday = 0).  2024-01-01 was a Monday. -/
def dayOfWeek (t : DT) : ℕ := (absDay t + 5) % 7


-- ======================================================================
-- Observation tables
-- ======================================================================

/-- One row of the staging observation table: `time, temp_obs`
(`api_xgb_data.py`, `json_to_dataframe`). -/
structure Obs where
  time : DT
  temp_obs : ℚ
deriving DecidableEq, Repr

/-- `df.sort_values("time")`. -/
def sortByTime (df : List Obs) : List Obs :=
  List.insertionSort (fun a b : Obs => tle a.time b.time = true) df

-- ======================================================================
-- api_xgb_data.py `__main__`: concat, sort, de-duplicate (the Normalizer)
-- ======================================================================

/-- Helper for `drop_duplicates`: scan forward, skipping any row whose
timestamp was already seen. -/
def dropDupScan (seen : List DT) : List Obs → List Obs
  | [] => []
  | x :: xs =>
    if seen.contains x.time then dropDupScan seen xs
    else x :: dropDupScan (x.time :: seen) xs

/-- `df.drop_duplicates(subset=["time"], keep="first")`: keep the first row
of each timestamp value, in the order of the input frame. -/
def dropDuplicateTimes (l : List Obs) : List Obs := dropDupScan [] l

/-- The `__main__` normalization of `api_xgb_data.py` (lines 115–122):
`pd.concat(dfs)`, sort by time, drop duplicate timestamps keeping the first,
and report the number of rows dropped. -/
def normalizeTables (dfs : List (List Obs)) : List Obs × ℕ :=
  let catted := dfs.flatten
  let sorted := sortByTime catted
  let out := dropDuplicateTimes sorted
  (out, sorted.length - out.length)

/-- The `__main__` hourly sanity check of `api_xgb_data.py` (line 126):
`df_all["time"].dt.hour.isin(range(24)).all()`.  (Note this inspects only
the hour-of-day component.) -/
def hourSanityCheck (df : List Obs) : Bool :=
  df.all (fun r => decide (r.time.hour < 24))

-- ======================================================================
-- build_features.py: time features
-- ======================================================================

/-- The calendar feature columns added by `add_time_features`.  The four
cyclical columns are floats `np.sin/np.cos (2π·x)`; the embedding keeps the
(deterministic) float sine/cosine as parameters `sinf cosf : ℚ → ℚ` applied
to the exact rational turn fraction (`hour/24`, `dayofyear/365`). -/
structure FeatCols where
  hour : ℕ
  day_of_week : ℕ
  is_weekend : ℕ
  sin_hour : ℚ
  cos_hour : ℚ
  sin_doy : ℚ
  cos_doy : ℚ
deriving DecidableEq, Repr

/-- The features `add_time_features` derives for one timestamp. -/
def mkTimeFeatures (sinf cosf : ℚ → ℚ) (t : DT) : FeatCols :=
  let dow := dayOfWeek t
  { hour := t.hour
    day_of_week := dow
    is_weekend := if 5 ≤ dow then 1 else 0
    sin_hour := sinf ((t.hour : ℚ) / 24)
    cos_hour := cosf ((t.hour : ℚ) / 24)
    sin_doy := sinf ((dayOfYear t : ℚ) / 365)
    cos_doy := cosf ((dayOfYear t : ℚ) / 365) }

/-- A row of a time-feature frame: the timestamp column plus, when present,
the calendar feature columns (absent before `add_time_features` has run). -/
structure TimeRow where
  time : DT
  feats : Option FeatCols
deriving DecidableEq, Repr

/-- `add_time_features (build_features.py lines 21–42)`: recomputes every
calendar feature column from the `time` column, overwriting any existing
values. -/
def add_time_features (sinf cosf : ℚ → ℚ) (df : List TimeRow) : List TimeRow :=
  df.map (fun r => { time := r.time, feats := some (mkTimeFeatures sinf cosf r.time) })

-- ======================================================================
-- build_features.py: check_hourly
-- ======================================================================

/-- Boolean chain check over consecutive pairs of a list. -/
def chainB {α : Type} (R : α → α → Bool) : List α → Bool
  | [] => true
  | [_] => true
  | a :: b :: l => R a b && chainB R (b :: l)

/-- `check_hourly (build_features.py lines 45–56)`: raise unless the time
column is non-strictly increasing, and unless every consecutive delta is
1 hour or 0 hours. -/
def check_hourly (df : List Obs) : Except String Unit :=
  if chainB (fun a b => decide (absMin a ≤ absMin b)) (df.map (fun r => r.time)) then
    if chainB (fun a b => decide (absMin b = absMin a + 60 ∨ absMin b = absMin a))
        (df.map (fun r => r.time)) then
      Except.ok ()
    else Except.error "Found non-hourly gaps in the time series."
  else Except.error "Timestamps are not sorted ascending."

-- ======================================================================
-- api_xgb_data.py: make_year_chunks (the Range Chunker)
-- ======================================================================

/-- Python `max` for pandas timestamps (`max(a, b)` returns `a` on ties). -/
def tsMax (a b : DT) : DT := if tle b a then a else b

/-- Python `min` for pandas timestamps (`min(a, b)` returns `a` on ties). -/
def tsMin (a b : DT) : DT := if tle a b then a else b

/-- Midnight timestamp of a calendar date (`pd.Timestamp(year, month, day)`). -/
def mkDate (y m d : ℕ) : DT := ⟨y, m, d, 0, 0⟩

/-- `make_year_chunks (api_xgb_data.py lines 75–90)` before `strftime`:
one `(sub_start, sub_end)` timestamp pair per year from `start.year` to
`end.year`, clipped to the year boundary and the original range. -/
def make_year_chunks_ts (start stop : DT) : List (DT × DT) :=
  (List.range (stop.year + 1 - start.year)).map (fun k =>
    let y := start.year + k
    (tsMax start (mkDate y 1 1), tsMin stop (mkDate y 12 31)))

/-- Zero-padded decimal rendering of width 2. -/
def pad2 (n : ℕ) : String := if n < 10 then "0" ++ Nat.repr n else Nat.repr n

/-- Zero-padded decimal rendering of width 4. -/
def pad4 (n : ℕ) : String :=
  if n < 10 then "000" ++ Nat.repr n
  else if n < 100 then "00" ++ Nat.repr n
  else if n < 1000 then "0" ++ Nat.repr n
  else Nat.repr n

/-- `ts.strftime("%Y-%m-%d")`. -/
def fmtDate (t : DT) : String := pad4 t.year ++ "-" ++ pad2 t.month ++ "-" ++ pad2 t.day

/-- `make_year_chunks` as in the source: the date-string pairs. -/
def make_year_chunks (start stop : DT) : List (String × String) :=
  (make_year_chunks_ts start stop).map (fun p => (fmtDate p.1, fmtDate p.2))

-- ======================================================================
-- build_features.py: build_train_features
-- ======================================================================

/-- Temperature of positional row `i` of a table (used only for `i`
within range; positional like pandas `shift`/`rolling`). -/
def tempAt (b : List Obs) (i : ℕ) : ℚ := (b.getD i ⟨⟨0, 1, 1, 0, 0⟩, 0⟩).temp_obs

/-- Timestamp of positional row `i` of a table. -/
def timeAt (b : List Obs) (i : ℕ) : DT := (b.getD i ⟨⟨0, 1, 1, 0, 0⟩, 0⟩).time

/-- `df["temp_obs"].shift(L)` at positional row `i`: the value `L` rows up,
or the missing marker when there is no such row. -/
def shiftCol (b : List Obs) (L i : ℕ) : Option ℚ :=
  if L ≤ i then some (tempAt b (i - L)) else none

/-- The values inside the pandas rolling window of length `W` at positional
row `i`: the last `min (i+1) W` observations ending at (and including) row
`i`. -/
def rollWindow (b : List Obs) (W i : ℕ) : List ℚ :=
  ((b.take (i + 1)).drop (i + 1 - W)).map (fun r => r.temp_obs)

/-- Arithmetic mean of a list of rationals. -/
def listMean (l : List ℚ) : ℚ := l.sum / l.length

/-- Sample variance (ddof = 1), the radicand of pandas `Series.std()`. -/
def listVarSample (l : List ℚ) : ℚ :=
  ((l.map (fun x => (x - listMean l) ^ 2)).sum) / ((l.length : ℚ) - 1)

/-- Population variance (ddof = 0), the radicand of `np.std`. -/
def listVarPop (l : List ℚ) : ℚ :=
  ((l.map (fun x => (x - listMean l) ^ 2)).sum) / (l.length : ℚ)

/-- `df["temp_obs"].rolling(W, min_periods=mp).mean()` at positional row `i`. -/
def rollMeanCol (b : List Obs) (W mp i : ℕ) : Option ℚ :=
  if mp ≤ (rollWindow b W i).length then some (listMean (rollWindow b W i)) else none

/-- The radicand of `df["temp_obs"].rolling(W, min_periods=mp).std()` at
positional row `i` (pandas `std` uses ddof = 1). -/
def rollVarCol (b : List Obs) (W mp i : ℕ) : Option ℚ :=
  if mp ≤ (rollWindow b W i).length then some (listVarSample (rollWindow b W i)) else none

/-- One row of the training feature frame (persisted training feature
table columns; `roll_var_*` is the radicand of the source's `roll_std_*`). -/
structure TrainRow where
  time : DT
  temp_obs : ℚ
  feats : FeatCols
  temp_lag_1 : Option ℚ
  temp_lag_24 : Option ℚ
  temp_lag_48 : Option ℚ
  temp_lag_72 : Option ℚ
  temp_lag_168 : Option ℚ
  temp_diff_1 : Option ℚ
  roll_mean_24 : Option ℚ
  roll_mean_168 : Option ℚ
  roll_var_24 : Option ℚ
  roll_var_168 : Option ℚ
deriving DecidableEq, Repr

/-- Row `i` of the training feature frame built over base table `b`
(build_features.py steps 3–4). -/
def mkTrainRow (sinf cosf : ℚ → ℚ) (b : List Obs) (i : ℕ) : TrainRow :=
  { time := timeAt b i
    temp_obs := tempAt b i
    feats := mkTimeFeatures sinf cosf (timeAt b i)
    temp_lag_1 := shiftCol b 1 i
    temp_lag_24 := shiftCol b 24 i
    temp_lag_48 := shiftCol b 48 i
    temp_lag_72 := shiftCol b 72 i
    temp_lag_168 := shiftCol b 168 i
    temp_diff_1 := if 2 ≤ i then some (tempAt b (i - 1) - tempAt b (i - 2)) else none
    roll_mean_24 := rollMeanCol b 24 24 i
    roll_mean_168 := rollMeanCol b 168 24 i
    roll_var_24 := rollVarCol b 24 24 i
    roll_var_168 := rollVarCol b 168 24 i }

/-- `df.dropna()` keeps a row iff every feature column is present. -/
def trainRowComplete (r : TrainRow) : Bool :=
  r.temp_lag_1.isSome && r.temp_lag_24.isSome && r.temp_lag_48.isSome &&
  r.temp_lag_72.isSome && r.temp_lag_168.isSome && r.temp_diff_1.isSome &&
  r.roll_mean_24.isSome && r.roll_mean_168.isSome &&
  r.roll_var_24.isSome && r.roll_var_168.isSome

/-- The base table the training feature columns are built over: the staging
table sorted by time and clipped to the cutoff (`df[df["time"] <= cutoff]`). -/
def trainBase (staging : List Obs) (cutoff : DT) : List Obs :=
  (sortByTime staging).filter (fun r => tle r.time cutoff)

/-- The pre-`dropna` training frame: sort, clip to the cutoff, add time
features and the lag / diff / rolling columns (build_features.py steps 1–4,
after `check_hourly` has passed). -/
def build_train_frame (sinf cosf : ℚ → ℚ) (staging : List Obs) (cutoff : DT) :
    List TrainRow :=
  (List.range (trainBase staging cutoff).length).map
    (mkTrainRow sinf cosf (trainBase staging cutoff))

/-- `build_train_features (build_features.py lines 59–114)`: sort, validate
hourly cadence, clip to the cutoff (error when empty), build the feature
columns, and drop incomplete rows. -/
def build_train_features (sinf cosf : ℚ → ℚ) (staging : List Obs) (cutoff : DT) :
    Except String (List TrainRow) :=
  match check_hourly (sortByTime staging) with
  | Except.error e => Except.error e
  | Except.ok () =>
    if (trainBase staging cutoff).isEmpty then
      Except.error "Training data is empty after applying the cutoff."
    else
      Except.ok ((build_train_frame sinf cosf staging cutoff).filter trainRowComplete)

/-- A default row for positional access into training frames. -/
def dummyTrainRow : TrainRow := mkTrainRow (fun _ => 0) (fun _ => 0) [] 0

/-- Modelled from the spec's words, for comparison with the pandas rolling
column: the rolling statistic the claim describes, computed over the window
of up to `W` observations ending at row `i − 1` (excluding row `i`), present
only when at least `mp` points are in that window. -/
def specRollMean (b : List Obs) (W mp i : ℕ) : Option ℚ :=
  if mp ≤ (((b.take i).drop (i - W)).map (fun r => r.temp_obs)).length then
    some (listMean (((b.take i).drop (i - W)).map (fun r => r.temp_obs)))
  else none

/-- A 24-row hourly staging table with temperatures 0, 1, …, 23. -/
def rampStaging24 : List Obs :=
  (List.range 24).map (fun k => ⟨⟨2024, 1, 1, k, 0⟩, (k : ℚ)⟩)

/-- Lag column access by offset, for quantifying over the configured lag
specification `[1, 24, 48, 72, 168]`. -/
def lagCol (r : TrainRow) (L : ℕ) : Option ℚ :=
  if L = 1 then r.temp_lag_1
  else if L = 24 then r.temp_lag_24
  else if L = 48 then r.temp_lag_48
  else if L = 72 then r.temp_lag_72
  else r.temp_lag_168

-- ======================================================================
-- build_features.py: build_infer_features
-- ======================================================================

/-- `pd.date_range(start=t0, end=t1 + Timedelta(hours=23), freq="h")`. -/
def inferTimeRange (t0 t1 : DT) : List DT :=
  let s := t0
  let e := addHours 23 t1
  let steps := if absMin s ≤ absMin e then (absMin e - absMin s) / 60 + 1 else 0
  (List.range steps).map (fun k => addHours k s)

/-- Column names produced by `add_time_features`. -/
def timeFeatureCols : List String :=
  ["hour", "day_of_week", "is_weekend", "sin_hour", "cos_hour", "sin_doy", "cos_doy"]

/-- `build_infer_features (build_features.py lines 117–144)`: an hourly time
frame over the horizon, time features only, then the leakage check that no
observed-temperature column is present. -/
def build_infer_features (sinf cosf : ℚ → ℚ) (t0 t1 : DT) :
    Except String (List String × List TimeRow) :=
  let ts := inferTimeRange t0 t1
  let df := ts.map (fun t => ({ time := t, feats := none } : TimeRow))
  let df2 := add_time_features sinf cosf df
  let cols := "time" :: timeFeatureCols
  if cols.contains "temp_obs" || cols.contains "temperature_2m" then
    Except.error "Inference features should not contain observed temperature columns."
  else
    Except.ok (cols, df2)

-- ======================================================================
-- test_truth.py: get_lag_value and get_rolling_stats
-- ======================================================================

/-- The hard-coded climatology reference years of `test_truth.py`. -/
def climatologyYears : List ℕ := [2020, 2021, 2022, 2023, 2024]

/-- Whether a history row matches the month / day / hour of a timestamp in
one of the reference years (the climatology filter of `test_truth.py`). -/
def climMatch (years : List ℕ) (t : DT) (r : Obs) : Bool :=
  r.time.month == t.month && r.time.day == t.day && r.time.hour == t.hour &&
    years.contains r.time.year

/-- `get_lag_value (test_truth.py lines 119–152)`: the real observation at
`t − L` hours when the history has one (tagged `"real"`); otherwise the mean
over reference-year rows matching month / day / hour (tagged
`"climatology"`); otherwise the missing marker (tagged `"missing"`). -/
def get_lag_value (target_time : DT) (lag_hours : ℕ) (history : List Obs)
    (years : List ℕ) : Option ℚ × String :=
  let lag_time := subHours lag_hours target_time
  match history.filter (fun r => r.time == lag_time) with
  | r :: _ => (some r.temp_obs, "real")
  | [] =>
    let cl := history.filter (climMatch years lag_time)
    if 0 < cl.length then
      (some (listMean (cl.map (fun r => r.temp_obs))), "climatology")
    else (none, "missing")

/-- The body of the gathering loop of `get_rolling_stats`: append the real
observation at hour `t` if the history has one, else the climatology mean
if reference matches exist, else append nothing. -/
def gatherHour (history : List Obs) (years : List ℕ) (acc : List ℚ) (t : DT) :
    List ℚ :=
  match history.filter (fun r => r.time == t) with
  | r :: _ => acc ++ [r.temp_obs]
  | [] =>
    let cl := history.filter (climMatch years t)
    if 0 < cl.length then acc ++ [listMean (cl.map (fun r => r.temp_obs))] else acc

/-- `get_rolling_stats (test_truth.py lines 184–211)`: gather a real or
climatology value for each of the `window_hours` hours strictly before
`target_time`, and return the mean and the radicand of `np.std` (population
variance) when at least `max(24, window_hours // 2)` values were gathered;
otherwise both missing. -/
def get_rolling_stats (target_time : DT) (window_hours : ℕ) (history : List Obs)
    (years : List ℕ) : Option ℚ × Option ℚ :=
  let times_needed := (List.range window_hours).map (fun i => subHours (i + 1) target_time)
  let temps := times_needed.foldl (gatherHour history years) []
  if max 24 (window_hours / 2) ≤ temps.length then
    (some (listMean temps), some (listVarPop temps))
  else (none, none)

/-- The per-hour lookup performed inside the gathering loop of
`get_rolling_stats`: the first real observation at `t`, else the climatology
mean when reference-year matches exist, else nothing. -/
def hourVal (history : List Obs) (years : List ℕ) (t : DT) : Option ℚ :=
  match history.filter (fun r => r.time == t) with
  | r :: _ => some r.temp_obs
  | [] =>
    if 0 < (history.filter (climMatch years t)).length then
      some (listMean ((history.filter (climMatch years t)).map (fun r => r.temp_obs)))
    else none

/-- Modelled from the spec's words, for comparison with the gathering loop:
the set of values assembled for `get_rolling_stats` — for each of the
`window_hours` hours strictly preceding the target (from `t−1` back to
`t−W`), either the real observation or its climatology substitute, hours
with neither contributing nothing. -/
def specAssembledWindow (target_time : DT) (window_hours : ℕ) (history : List Obs)
    (years : List ℕ) : List ℚ :=
  ((List.range window_hours).map (fun i => subHours (i + 1) target_time)).filterMap
    (hourVal history years)

-- ======================================================================
-- Theorems
-- ======================================================================

-- Basic calendar lemmas

theorem leapsBefore_succ (y : ℕ) :
    leapsBefore (y + 1) = leapsBefore y + (if isLeap y then 1 else 0) := by
  unfold leapsBefore isLeap
  split
  · rename_i h
    simp only [Bool.or_eq_true, Bool.and_eq_true, beq_iff_eq, bne_iff_ne, ne_eq] at h
    omega
  · rename_i h
    simp only [Bool.or_eq_true, Bool.and_eq_true, beq_iff_eq, bne_iff_ne, ne_eq] at h
    push_neg at h
    omega

theorem dayOfYear_bounds {t : DT} (h : t.Valid) :
    1 ≤ dayOfYear t ∧ dayOfYear t ≤ daysInYear t.year := by
  obtain ⟨h1, h2, h3, h4, -, -⟩ := h
  unfold dayOfYear monthPrefixDays daysInYear
  unfold daysInMonth at h4
  interval_cases h : t.month <;> simp_all <;> split_ifs at * <;> omega

theorem monthPrefixDays_succ {y m : ℕ} (h1 : 1 ≤ m) (h2 : m ≤ 11) :
    monthPrefixDays y (m + 1) = monthPrefixDays y m + daysInMonth y m := by
  unfold monthPrefixDays daysInMonth
  interval_cases m <;> split_ifs <;> simp_all

/-- `addHour` preserves validity and advances `absMin` by exactly 60. -/
theorem absMin_addHour {t : DT} (h : t.Valid) :
    (addHour t).Valid ∧ absMin (addHour t) = absMin t + 60 := by
  obtain ⟨h1, h2, h3, h4, h5, h6⟩ := h
  unfold addHour
  split
  · rename_i hh
    refine ⟨⟨h1, h2, h3, h4, hh, h6⟩, ?_⟩
    unfold absMin absDay dayOfYear
    dsimp only
    omega
  · rename_i hh
    have hhour : t.hour = 23 := by omega
    split
    · rename_i hd
      refine ⟨⟨h1, h2, by dsimp only; omega, hd, by dsimp only; omega, h6⟩, ?_⟩
      unfold absMin absDay dayOfYear
      dsimp only
      omega
    · rename_i hd
      split
      · rename_i hm
        have hmpd := monthPrefixDays_succ (y := t.year) h1 (by omega)
        refine ⟨⟨by dsimp only; omega, hm, by dsimp only; omega, ?_, by dsimp only; omega, h6⟩, ?_⟩
        · show (1 : ℕ) ≤ daysInMonth t.year (t.month + 1)
          unfold daysInMonth
          split_ifs <;> omega
        · unfold absMin absDay dayOfYear
          dsimp only
          rw [hmpd]
          omega
      · rename_i hm
        have hm12 : t.month = 12 := by omega
        have hdim12 : daysInMonth t.year 12 = 31 := by unfold daysInMonth; norm_num
        have hday : t.day = 31 := by rw [hm12, hdim12] at h4 hd; omega
        have hlb := leapsBefore_succ t.year
        have hmp12 : monthPrefixDays t.year 12 = 334 + (if isLeap t.year then 1 else 0) := by
          unfold monthPrefixDays
          norm_num
        have hmp1 : monthPrefixDays (t.year + 1) 1 = 0 := by
          unfold monthPrefixDays
          norm_num
        refine ⟨⟨by norm_num, by norm_num, by norm_num, ?_, by norm_num, h6⟩, ?_⟩
        · unfold daysInMonth
          norm_num
        · unfold absMin absDay dayOfYear
          dsimp only
          rw [hm12, hmp12, hmp1, hlb]
          split_ifs <;> omega

theorem absMin_addHours {t : DT} (h : t.Valid) (n : ℕ) :
    (addHours n t).Valid ∧ absMin (addHours n t) = absMin t + 60 * n := by
  induction n with
  | zero => simpa [addHours] using h
  | succ k ih =>
    have step := absMin_addHour ih.1
    refine ⟨?_, ?_⟩
    · show (addHour^[k+1] t).Valid
      rw [Function.iterate_succ_apply']
      exact step.1
    · show absMin (addHour^[k+1] t) = _
      rw [Function.iterate_succ_apply']
      have h2 : absMin (addHour (addHours k t)) = absMin (addHours k t) + 60 := step.2
      rw [show addHour^[k] t = addHours k t from rfl, h2, ih.2]
      ring


-- ======================================================================
-- C5: the `__main__` hour sanity check
-- ======================================================================

/-- C5: the claim says normalization rejects (with a cadence error) any
timestamp not on an exact hour boundary.  The code's check
`df["time"].dt.hour.isin(range(24)).all()` inspects only the hour-of-day
component, which is always in 0–23: a timestamp at minute 30 — not on an
hour boundary — passes the check, so no error is raised. -/
theorem hour_sanity_check_passes_half_hour :
    hourSanityCheck [⟨⟨2024, 1, 1, 0, 30⟩, (20 : ℚ)⟩] = true ∧
    (⟨2024, 1, 1, 0, 30⟩ : DT).minute ≠ 0 ∧
    (⟨2024, 1, 1, 0, 30⟩ : DT).Valid := by
  refine ⟨rfl, by decide, by decide⟩

-- ======================================================================
-- C8: add_time_features is pure, deterministic, idempotent
-- ======================================================================

/-- C8: `add_time_features` writes every calendar feature column as a
function of the `time` column alone (for any deterministic float sine and
cosine `sinf`, `cosf`), preserves the `time` column, and is idempotent:
applying it to its own output changes nothing. -/
theorem add_time_features_pure_idempotent (sinf cosf : ℚ → ℚ) (df : List TimeRow) :
    add_time_features sinf cosf (add_time_features sinf cosf df) =
      add_time_features sinf cosf df ∧
    (add_time_features sinf cosf df).map TimeRow.time = df.map TimeRow.time ∧
    ∀ r ∈ add_time_features sinf cosf df,
      r.feats = some (mkTimeFeatures sinf cosf r.time) := by
  refine ⟨?_, ?_, ?_⟩
  · unfold add_time_features
    rw [List.map_map]
    rfl
  · unfold add_time_features
    rw [List.map_map]
    rfl
  · intro r hr
    unfold add_time_features at hr
    obtain ⟨s, -, rfl⟩ := List.mem_map.mp hr
    rfl

/-- Witness for C8 at a concrete one-row frame and concrete cyclical
encoders. -/
theorem add_time_features_pure_idempotent_witness :
    add_time_features id id (add_time_features id id [⟨⟨2025, 9, 17, 0, 0⟩, none⟩]) =
      add_time_features id id [⟨⟨2025, 9, 17, 0, 0⟩, none⟩] :=
  (add_time_features_pure_idempotent id id [⟨⟨2025, 9, 17, 0, 0⟩, none⟩]).1

-- ======================================================================
-- C9: build_infer_features never raises the leakage error
-- ======================================================================

/-- C9: for every valid horizon `t0 ≤ t1`, `build_infer_features` succeeds:
its frame holds only the generated `time` column plus the calendar feature
columns, so the forbidden observed-temperature columns are absent and the
leakage-error branch is unreachable. -/
theorem build_infer_features_never_leakage_error (sinf cosf : ℚ → ℚ) (t0 t1 : DT)
    (h : tle t0 t1 = true) :
    ∃ out, build_infer_features sinf cosf t0 t1 = Except.ok out ∧
      out.1 = "time" :: timeFeatureCols ∧
      "temp_obs" ∉ out.1 ∧ "temperature_2m" ∉ out.1 := by
  refine ⟨_, rfl, rfl, ?_, ?_⟩
  · show "temp_obs" ∉ "time" :: timeFeatureCols
    decide
  · show "temperature_2m" ∉ "time" :: timeFeatureCols
    decide

/-- Witness for C9 at the repository's configured horizon
2025-09-17 .. 2025-09-30. -/
theorem build_infer_features_never_leakage_error_witness :
    tle (mkDate 2025 9 17) (mkDate 2025 9 30) = true ∧
    ∃ out, build_infer_features id id (mkDate 2025 9 17) (mkDate 2025 9 30) = Except.ok out ∧
      out.1 = "time" :: timeFeatureCols ∧
      "temp_obs" ∉ out.1 ∧ "temperature_2m" ∉ out.1 :=
  ⟨by decide,
   build_infer_features_never_leakage_error id id (mkDate 2025 9 17) (mkDate 2025 9 30)
     (by decide)⟩

-- ======================================================================
-- C10: check_hourly accepts exactly {0h, 1h} deltas
-- ======================================================================

/-- A staging table whose second row duplicates the first row's timestamp
(the DST fall-back shape), used to exercise `check_hourly`. -/
def dupStaging : List Obs :=
  [⟨⟨2024, 11, 3, 1, 0⟩, 10⟩, ⟨⟨2024, 11, 3, 1, 0⟩, 11⟩, ⟨⟨2024, 11, 3, 2, 0⟩, 12⟩]

/-- `chainB` agrees with `List.Chain'`. -/
theorem chainB_iff_chain' {α : Type} (R : α → α → Bool) (l : List α) :
    chainB R l = true ↔ List.Chain' (fun a b => R a b = true) l := by
  induction l with
  | nil => simp [chainB]
  | cons a l ih =>
    cases l with
    | nil => simp [chainB]
    | cons b l =>
      rw [List.chain'_cons, ← ih]
      simp [chainB]

/-- C10: `check_hourly` accepts a table exactly when every consecutive
timestamp delta is one hour or zero hours (the separate monotonicity check
is subsumed); consequently the table `dupStaging` with a consecutive
duplicate timestamp passes validation, and `build_train_features` runs its
positional lag construction on it without error even though its timestamps
are not unique. -/
theorem check_hourly_accepts_iff_hour_or_zero_deltas :
    (∀ df : List Obs,
      check_hourly df = Except.ok () ↔
        List.Chain'
          (fun a b : Obs =>
            absMin b.time = absMin a.time + 60 ∨ absMin b.time = absMin a.time) df) ∧
    (check_hourly dupStaging = Except.ok () ∧
      ¬ (dupStaging.map (fun r => r.time)).Nodup ∧
      (build_train_features id id dupStaging ⟨2030, 1, 1, 0, 0⟩).isOk = true) := by
  have main : ∀ df : List Obs,
      check_hourly df = Except.ok () ↔
        List.Chain'
          (fun a b : Obs =>
            absMin b.time = absMin a.time + 60 ∨ absMin b.time = absMin a.time) df := by
    intro df
    have hiff :
        List.Chain'
            (fun a b : DT =>
              decide (absMin b = absMin a + 60 ∨ absMin b = absMin a) = true)
            (df.map (fun r => r.time)) ↔
          List.Chain'
            (fun a b : Obs =>
              absMin b.time = absMin a.time + 60 ∨ absMin b.time = absMin a.time) df := by
      rw [List.chain'_map]
      constructor
      · exact fun h => h.imp fun a b hab => of_decide_eq_true hab
      · exact fun h => h.imp fun a b hab => decide_eq_true hab
    have hiff2 :
        List.Chain'
            (fun a b : Obs =>
              absMin b.time = absMin a.time + 60 ∨ absMin b.time = absMin a.time) df →
          chainB (fun a b => decide (absMin a ≤ absMin b)) (df.map (fun r => r.time)) = true := by
      intro h
      rw [chainB_iff_chain', List.chain'_map]
      exact h.imp fun a b hab => decide_eq_true (by omega)
    unfold check_hourly
    constructor
    · intro h
      split_ifs at h with h1 h2
      · exact hiff.mp ((chainB_iff_chain' _ _).mp h2)
    · intro h
      rw [if_pos (hiff2 h), if_pos ((chainB_iff_chain' _ _).mpr (hiff.mpr h))]
  refine ⟨main, (main dupStaging).mpr ?_, by decide, by decide⟩
  unfold dupStaging
  rw [List.chain'_cons, List.chain'_cons]
  exact ⟨Or.inr (by decide), Or.inl (by decide), List.chain'_singleton _⟩

/-- Witness for C10: a second duplicate-bearing table is accepted via the
characterization. -/
theorem check_hourly_accepts_iff_hour_or_zero_deltas_witness :
    check_hourly [⟨⟨2025, 11, 2, 1, 0⟩, 3⟩, ⟨⟨2025, 11, 2, 1, 0⟩, 4⟩] = Except.ok () :=
  (check_hourly_accepts_iff_hour_or_zero_deltas.1 _).mpr
    (by rw [List.chain'_cons]
        exact ⟨Or.inr (by decide), List.chain'_singleton _⟩)

-- ======================================================================
-- C7: normalization sorts, de-duplicates keeping the first, reports count
-- ======================================================================

instance : IsTotal Obs (fun a b : Obs => tle a.time b.time = true) :=
  ⟨fun a b => by
    unfold tle
    rcases le_total (absMin a.time) (absMin b.time) with h | h
    · exact Or.inl (decide_eq_true h)
    · exact Or.inr (decide_eq_true h)⟩

instance : IsTrans Obs (fun a b : Obs => tle a.time b.time = true) :=
  ⟨fun a b c hab hbc => by
    unfold tle at *
    exact decide_eq_true (le_trans (of_decide_eq_true hab) (of_decide_eq_true hbc))⟩

/-- `sort_values` output is sorted. -/
theorem sortByTime_sorted (df : List Obs) :
    List.Pairwise (fun a b : Obs => tle a.time b.time = true) (sortByTime df) :=
  List.sorted_insertionSort _ df

/-- `sort_values` output is a permutation of the input. -/
theorem sortByTime_perm (df : List Obs) : (sortByTime df).Perm df :=
  List.perm_insertionSort _ df

theorem dropDupScan_sublist (seen : List DT) (l : List Obs) :
    (dropDupScan seen l).Sublist l := by
  induction l generalizing seen with
  | nil => simp [dropDupScan]
  | cons x xs ih =>
    unfold dropDupScan
    split
    · exact (ih seen).cons x
    · exact (ih (x.time :: seen)).cons₂ x

/-- Every row kept by the de-duplication scan has an unseen timestamp and is
the first row of the scanned list bearing its timestamp. -/
theorem dropDupScan_first (seen : List DT) (l : List Obs) :
    ∀ r ∈ dropDupScan seen l,
      seen.contains r.time = false ∧
      l.find? (fun s => s.time == r.time) = some r := by
  induction l generalizing seen with
  | nil => simp [dropDupScan]
  | cons x xs ih =>
    intro r hr
    unfold dropDupScan at hr
    split at hr
    · rename_i hx
      obtain ⟨hseen, hfind⟩ := ih seen r hr
      have hxr : (x.time == r.time) = false := by
        cases hb : (x.time == r.time)
        · rfl
        · rw [beq_iff_eq.mp hb, hseen] at hx
          exact absurd hx Bool.false_ne_true
      refine ⟨hseen, ?_⟩
      simp only [List.find?_cons, hxr]
      exact hfind
    · rename_i hx
      rcases List.mem_cons.mp hr with hr' | hr'
      · subst hr'
        refine ⟨Bool.not_eq_true _ ▸ hx, ?_⟩
        simp only [List.find?_cons, beq_self_eq_true]
      · obtain ⟨hseen, hfind⟩ := ih (x.time :: seen) r hr'
        rw [List.contains_cons] at hseen
        have h1 : (r.time == x.time) = false := by
          cases hb : (r.time == x.time)
          · rfl
          · rw [hb] at hseen
            exact absurd hseen (by simp)
        have h2 : seen.contains r.time = false := by
          cases hb : seen.contains r.time
          · rfl
          · rw [hb] at hseen
            exact absurd hseen (by simp)
        have hxr : (x.time == r.time) = false := by
          cases hb : (x.time == r.time)
          · rfl
          · rw [beq_iff_eq.mp hb] at h1
            rw [beq_self_eq_true] at h1
            exact absurd h1 (by simp)
        refine ⟨h2, ?_⟩
        simp only [List.find?_cons, hxr]
        exact hfind

/-- The timestamps kept by the de-duplication scan are pairwise distinct. -/
theorem dropDupScan_nodup (seen : List DT) (l : List Obs) :
    ((dropDupScan seen l).map (fun r => r.time)).Nodup := by
  induction l generalizing seen with
  | nil => simp [dropDupScan]
  | cons x xs ih =>
    unfold dropDupScan
    split
    · exact ih seen
    · rw [List.map_cons, List.nodup_cons]
      refine ⟨?_, ih (x.time :: seen)⟩
      intro hmem
      obtain ⟨r, hr, hrt⟩ := List.mem_map.mp hmem
      have := (dropDupScan_first (x.time :: seen) xs r hr).1
      rw [List.contains_cons, hrt] at this
      simp at this

/-- Every timestamp of the scanned list survives the de-duplication scan,
provided it was not already seen. -/
theorem dropDupScan_mem_time (seen : List DT) (l : List Obs) (t : DT)
    (ht : seen.contains t = false) (h : ∃ r ∈ l, r.time = t) :
    ∃ r ∈ dropDupScan seen l, r.time = t := by
  induction l generalizing seen with
  | nil => simp at h
  | cons x xs ih =>
    unfold dropDupScan
    split
    · rename_i hx
      obtain ⟨r, hr, hrt⟩ := h
      rcases List.mem_cons.mp hr with hr' | hr'
      · exfalso
        rw [show x.time = t from hr' ▸ hrt] at hx
        rw [ht] at hx
        exact Bool.false_ne_true hx
      · exact ih seen ht ⟨r, hr', hrt⟩
    · rename_i hx
      by_cases hxt : x.time = t
      · exact ⟨x, List.mem_cons_self x _, hxt⟩
      · obtain ⟨r, hr, hrt⟩ := h
        rcases List.mem_cons.mp hr with hr' | hr'
        · exact absurd (hr' ▸ hrt) hxt
        · have hseen' : (x.time :: seen).contains t = false := by
            rw [List.contains_cons]
            have : (t == x.time) = false := by
              cases hb : (t == x.time)
              · rfl
              · exact absurd (beq_iff_eq.mp hb).symm hxt
            rw [this, ht]
            rfl
          obtain ⟨r', hr'', hrt'⟩ := ih (x.time :: seen) hseen' ⟨r, hr', hrt⟩
          exact ⟨r', List.mem_cons_of_mem x hr'', hrt'⟩

/-- C7: on every input collection, the normalizer's output is sorted
ascending, has pairwise-distinct timestamps, keeps exactly the first sorted
row of each timestamp, and the de-duplication count is the number of rows
removed; in particular, the table with one duplicated timestamp normalizes
to one fewer row with a reported count of 1. -/
theorem normalize_sorted_nodup_keeps_first :
    (∀ dfs : List (List Obs),
      List.Pairwise (fun a b : Obs => tle a.time b.time = true) (normalizeTables dfs).1 ∧
      ((normalizeTables dfs).1.map (fun r => r.time)).Nodup ∧
      (∀ r ∈ (normalizeTables dfs).1,
        (sortByTime dfs.flatten).find? (fun s => s.time == r.time) = some r) ∧
      (∀ s ∈ sortByTime dfs.flatten, ∃ r ∈ (normalizeTables dfs).1, r.time = s.time) ∧
      (normalizeTables dfs).1.length + (normalizeTables dfs).2 = dfs.flatten.length) ∧
    normalizeTables [dupStaging] =
      ([⟨⟨2024, 11, 3, 1, 0⟩, 10⟩, ⟨⟨2024, 11, 3, 2, 0⟩, 12⟩], 1) := by
  refine ⟨?_, by decide⟩
  intro dfs
  have hsub : (normalizeTables dfs).1.Sublist (sortByTime dfs.flatten) :=
    dropDupScan_sublist [] (sortByTime dfs.flatten)
  refine ⟨(sortByTime_sorted dfs.flatten).sublist hsub,
    dropDupScan_nodup [] (sortByTime dfs.flatten),
    fun r hr => (dropDupScan_first [] (sortByTime dfs.flatten) r hr).2,
    fun s hs => dropDupScan_mem_time [] (sortByTime dfs.flatten) s.time rfl ⟨s, hs, rfl⟩,
    ?_⟩
  have hle : (normalizeTables dfs).1.length ≤ (sortByTime dfs.flatten).length :=
    hsub.length_le
  have hperm : (sortByTime dfs.flatten).length = dfs.flatten.length :=
    (sortByTime_perm dfs.flatten).length_eq
  show (normalizeTables dfs).1.length +
    ((sortByTime dfs.flatten).length - (normalizeTables dfs).1.length) = dfs.flatten.length
  omega

/-- Witness for C7 at a concrete two-chunk input with a cross-chunk
duplicate timestamp. -/
theorem normalize_sorted_nodup_keeps_first_witness :
    (normalizeTables [[⟨⟨2024, 1, 1, 1, 0⟩, 7⟩], [⟨⟨2024, 1, 1, 1, 0⟩, 8⟩]]).1.length +
      (normalizeTables [[⟨⟨2024, 1, 1, 1, 0⟩, 7⟩], [⟨⟨2024, 1, 1, 1, 0⟩, 8⟩]]).2 =
      ([[⟨⟨2024, 1, 1, 1, 0⟩, 7⟩], [⟨⟨2024, 1, 1, 1, 0⟩, 8⟩]] : List (List Obs)).flatten.length :=
  (normalize_sorted_nodup_keeps_first.1 _).2.2.2.2

-- ======================================================================
-- C3: get_lag_value — real value, climatology fallback, missing marker
-- ======================================================================

/-- C3: for every target timestamp, lag and history table, `get_lag_value`
returns a real observation at `t − L` hours tagged `"real"` when the history
has one; otherwise, when at least one history row matches the lag time's
month / day / hour in a reference year, the arithmetic mean of those matches
tagged `"climatology"`; and with no matches at all, the missing marker
tagged `"missing"`. -/
theorem get_lag_value_real_climatology_missing (t : DT) (L : ℕ) (hist : List Obs) :
    ((∃ r ∈ hist, r.time = subHours L t) →
      (get_lag_value t L hist climatologyYears).2 = "real" ∧
      ∃ r ∈ hist, r.time = subHours L t ∧
        (get_lag_value t L hist climatologyYears).1 = some r.temp_obs) ∧
    ((∀ r ∈ hist, r.time ≠ subHours L t) →
      (∃ r ∈ hist, climMatch climatologyYears (subHours L t) r = true) →
      get_lag_value t L hist climatologyYears =
        (some (listMean
          ((hist.filter (climMatch climatologyYears (subHours L t))).map
            (fun r => r.temp_obs))), "climatology")) ∧
    ((∀ r ∈ hist, r.time ≠ subHours L t) →
      (∀ r ∈ hist, ¬ climMatch climatologyYears (subHours L t) r = true) →
      get_lag_value t L hist climatologyYears = (none, "missing")) := by
  refine ⟨?_, ?_, ?_⟩
  · intro hex
    obtain ⟨r0, hr0, hrt0⟩ := hex
    have hmem : r0 ∈ hist.filter (fun r => r.time == subHours L t) :=
      List.mem_filter.mpr ⟨hr0, by simp [hrt0]⟩
    unfold get_lag_value
    dsimp only
    rcases hfil : hist.filter (fun r => r.time == subHours L t) with _ | ⟨r1, rest⟩
    · rw [hfil] at hmem
      exact absurd hmem (List.not_mem_nil r0)
    · have hr1 : r1 ∈ hist ∧ (r1.time == subHours L t) = true :=
        List.mem_filter.mp (hfil ▸ List.mem_cons_self r1 rest)
      rw [hfil]
      exact ⟨rfl, r1, hr1.1, beq_iff_eq.mp hr1.2, rfl⟩
  · intro hno hcl
    unfold get_lag_value
    dsimp only
    rcases hfil : hist.filter (fun r => r.time == subHours L t) with _ | ⟨r1, rest⟩
    · obtain ⟨r0, hr0, hm0⟩ := hcl
      have hlen : 0 < (hist.filter (climMatch climatologyYears (subHours L t))).length :=
        List.length_pos.mpr (fun he =>
          (List.filter_eq_nil_iff.mp he r0 hr0) hm0)
      rw [hfil, if_pos hlen]
    · exfalso
      have hr1 : r1 ∈ hist ∧ (r1.time == subHours L t) = true :=
        List.mem_filter.mp (hfil ▸ List.mem_cons_self r1 rest)
      exact hno r1 hr1.1 (beq_iff_eq.mp hr1.2)
  · intro hno hncl
    unfold get_lag_value
    dsimp only
    rcases hfil : hist.filter (fun r => r.time == subHours L t) with _ | ⟨r1, rest⟩
    · have hnil : hist.filter (climMatch climatologyYears (subHours L t)) = [] :=
        List.filter_eq_nil_iff.mpr hncl
      rw [hfil, hnil]
      rfl
    · exfalso
      have hr1 : r1 ∈ hist ∧ (r1.time == subHours L t) = true :=
        List.mem_filter.mp (hfil ▸ List.mem_cons_self r1 rest)
      exact hno r1 hr1.1 (beq_iff_eq.mp hr1.2)

/-- Witness for C3, exercising the climatology branch: two reference-year
matches at 2020/2021-09-16 05:00 for target 2025-09-17 05:00 at lag 24,
averaging to 21. -/
theorem get_lag_value_real_climatology_missing_witness :
    get_lag_value ⟨2025, 9, 17, 5, 0⟩ 24
        [⟨⟨2020, 9, 16, 5, 0⟩, 20⟩, ⟨⟨2021, 9, 16, 5, 0⟩, 22⟩] climatologyYears =
      (some 21, "climatology") := by
  have h := (get_lag_value_real_climatology_missing ⟨2025, 9, 17, 5, 0⟩ 24
    [⟨⟨2020, 9, 16, 5, 0⟩, 20⟩, ⟨⟨2021, 9, 16, 5, 0⟩, 22⟩]).2.1
    (by decide) ⟨⟨⟨2020, 9, 16, 5, 0⟩, 20⟩, by decide, by decide⟩
  rw [h]
  have hfil :
      ([⟨⟨2020, 9, 16, 5, 0⟩, 20⟩, ⟨⟨2021, 9, 16, 5, 0⟩, 22⟩] : List Obs).filter
          (climMatch climatologyYears
            (subHours 24 ⟨2025, 9, 17, 5, 0⟩)) =
        [⟨⟨2020, 9, 16, 5, 0⟩, 20⟩, ⟨⟨2021, 9, 16, 5, 0⟩, 22⟩] := by decide
  rw [hfil]
  show (some (listMean [20, 22]), "climatology") = (some 21, "climatology")
  norm_num [listMean]

-- ======================================================================
-- C6: get_rolling_stats gathers per-hour values and applies the threshold
-- ======================================================================

/-- Each step of the gathering loop appends exactly the per-hour lookup
result. -/
theorem gatherHour_eq_append (hist : List Obs) (ys : List ℕ) (acc : List ℚ) (t : DT) :
    gatherHour hist ys acc t = acc ++ (hourVal hist ys t).toList := by
  unfold gatherHour hourVal
  dsimp only
  rcases hfil : hist.filter (fun r => r.time == t) with _ | ⟨r, rest⟩
  · rw [hfil]
    split_ifs <;> simp
  · rw [hfil]
    rfl

/-- The gathering fold is the concatenation of the per-hour lookups. -/
theorem foldl_gatherHour (hist : List Obs) (ys : List ℕ) (ts : List DT) :
    ∀ acc : List ℚ,
      ts.foldl (gatherHour hist ys) acc = acc ++ ts.filterMap (hourVal hist ys) := by
  induction ts with
  | nil => simp
  | cons t ts ih =>
    intro acc
    rw [List.foldl_cons, ih, gatherHour_eq_append, List.filterMap_cons]
    rcases hourVal hist ys t with _ | v <;> simp

/-- C6: `get_rolling_stats` returns the mean and the population-variance
radicand of `np.std` over the assembled per-hour values exactly when at
least `max(24, W/2)` of the `W` hours strictly preceding the target
contributed a value, and the missing pair otherwise; each contributing hour
supplies the real observation when the history has one, else the
climatology mean of the reference-year matches, and contributes nothing
when neither exists. -/
theorem get_rolling_stats_assembles_and_thresholds (t : DT) (W : ℕ) (hist : List Obs)
    (ys : List ℕ) :
    (get_rolling_stats t W hist ys =
      if max 24 (W / 2) ≤ (specAssembledWindow t W hist ys).length then
        (some (listMean (specAssembledWindow t W hist ys)),
         some (listVarPop (specAssembledWindow t W hist ys)))
      else (none, none)) ∧
    (∀ u : DT, (∃ r ∈ hist, r.time = u) →
      ∃ r ∈ hist, r.time = u ∧ hourVal hist ys u = some r.temp_obs) ∧
    (∀ u : DT, (∀ r ∈ hist, r.time ≠ u) →
      (∃ r ∈ hist, climMatch ys u r = true) →
      hourVal hist ys u =
        some (listMean ((hist.filter (climMatch ys u)).map (fun r => r.temp_obs)))) ∧
    (∀ u : DT, (∀ r ∈ hist, r.time ≠ u) →
      (∀ r ∈ hist, ¬ climMatch ys u r = true) →
      hourVal hist ys u = none) := by
  refine ⟨?_, ?_, ?_, ?_⟩
  · unfold get_rolling_stats specAssembledWindow
    dsimp only
    rw [foldl_gatherHour, List.nil_append]
  · intro u hex
    obtain ⟨r0, hr0, hrt0⟩ := hex
    have hmem : r0 ∈ hist.filter (fun r => r.time == u) :=
      List.mem_filter.mpr ⟨hr0, by simp [hrt0]⟩
    unfold hourVal
    rcases hfil : hist.filter (fun r => r.time == u) with _ | ⟨r1, rest⟩
    · rw [hfil] at hmem
      exact absurd hmem (List.not_mem_nil r0)
    · have hr1 : r1 ∈ hist ∧ (r1.time == u) = true :=
        List.mem_filter.mp (hfil ▸ List.mem_cons_self r1 rest)
      exact ⟨r1, hr1.1, beq_iff_eq.mp hr1.2, by rw [hfil]⟩
  · intro u hno hcl
    unfold hourVal
    rcases hfil : hist.filter (fun r => r.time == u) with _ | ⟨r1, rest⟩
    · obtain ⟨r0, hr0, hm0⟩ := hcl
      have hlen : 0 < (hist.filter (climMatch ys u)).length :=
        List.length_pos.mpr (fun he => (List.filter_eq_nil_iff.mp he r0 hr0) hm0)
      rw [hfil, if_pos hlen]
    · exfalso
      have hr1 : r1 ∈ hist ∧ (r1.time == u) = true :=
        List.mem_filter.mp (hfil ▸ List.mem_cons_self r1 rest)
      exact hno r1 hr1.1 (beq_iff_eq.mp hr1.2)
  · intro u hno hncl
    unfold hourVal
    rcases hfil : hist.filter (fun r => r.time == u) with _ | ⟨r1, rest⟩
    · rw [hfil, List.filter_eq_nil_iff.mpr hncl]
      rfl
    · exfalso
      have hr1 : r1 ∈ hist ∧ (r1.time == u) = true :=
        List.mem_filter.mp (hfil ▸ List.mem_cons_self r1 rest)
      exact hno r1 hr1.1 (beq_iff_eq.mp hr1.2)

/-- Witness for C6: with an empty history no hour contributes, so both
statistics are the missing marker; and with a real observation present the
per-hour lookup returns it. -/
theorem get_rolling_stats_assembles_and_thresholds_witness :
    get_rolling_stats ⟨2021, 1, 2, 0, 0⟩ 24 [] climatologyYears = (none, none) ∧
    hourVal [⟨⟨2021, 1, 1, 0, 0⟩, 5⟩] climatologyYears ⟨2021, 1, 1, 0, 0⟩ = some 5 := by
  constructor
  · rw [(get_rolling_stats_assembles_and_thresholds
      ⟨2021, 1, 2, 0, 0⟩ 24 [] climatologyYears).1]
    decide
  · obtain ⟨r, hr, -, hv⟩ :=
      (get_rolling_stats_assembles_and_thresholds ⟨2021, 1, 1, 1, 0⟩ 1
        [⟨⟨2021, 1, 1, 0, 0⟩, 5⟩] climatologyYears).2.1 ⟨2021, 1, 1, 0, 0⟩
        ⟨⟨⟨2021, 1, 1, 0, 0⟩, 5⟩, by decide, rfl⟩
    have hr' : r = ⟨⟨2021, 1, 1, 0, 0⟩, 5⟩ := by simpa using hr
    rw [hv, hr']

-- ======================================================================
-- C2: training rolling windows include the current row
-- ======================================================================

/-- C2 counterexample: on the 24-row ramp table, the training frame's
`roll_mean_24` at row 23 is present, while the claim's window — ending at
row 22, excluding the current row — holds only 23 points and so would be
the missing marker. -/
theorem train_rolling_excludes_current_row_counterexample :
    ((build_train_frame (fun _ => 0) (fun _ => 0) rampStaging24
        ⟨2030, 1, 1, 0, 0⟩).getD 23 dummyTrainRow).roll_mean_24.isSome = true ∧
    specRollMean (trainBase rampStaging24 ⟨2030, 1, 1, 0, 0⟩) 24 24 23 = none := by
  constructor <;> decide

/-- Position `i` is in range after clipping. -/
theorem tempAt_eq_getElem (b : List Obs) (i : ℕ) (hi : i < b.length) :
    tempAt b i = b[i].temp_obs := by
  unfold tempAt
  rw [List.getD_eq_getElem b _ hi]

/-- The pandas rolling window of width `W` at row `i` is the run of
`min (i+1) W` observations ending at — and including — row `i`. -/
theorem rollWindow_eq_range_map (b : List Obs) (W i : ℕ) (hi : i < b.length) :
    rollWindow b W i =
      (List.range (min (i + 1) W)).map
        (fun j => tempAt b (i + 1 - min (i + 1) W + j)) := by
  apply List.ext_getElem
  · simp only [rollWindow, List.length_map, List.length_drop, List.length_take,
      List.length_range]
    omega
  · intro j h1 h2
    have hlen : (rollWindow b W i).length = min (i + 1) W := by
      simp only [rollWindow, List.length_map, List.length_drop, List.length_take]
      omega
    have hj : j < min (i + 1) W := by rw [hlen] at h1; exact h1
    have hidx : i + 1 - W + j < i + 1 := by omega
    have hidx2 : i + 1 - W + j < b.length := by omega
    unfold rollWindow
    rw [List.getElem_map, List.getElem_drop, List.getElem_take]
    rw [List.getElem_map, List.getElem_range]
    rw [tempAt_eq_getElem b _ (by omega : i + 1 - min (i + 1) W + j < b.length)]
    have hix : i + 1 - W + j = i + 1 - min (i + 1) W + j := by omega
    simp only [hix]

/-- C2 as amended: in the training frame, each rolling mean / std window is
the run of `min (i+1, W)` observations ending at and including row `i`, and
the statistic is present exactly when that window holds at least 24 points,
i.e. from row 23 on. -/
theorem train_rolling_window_ends_at_current_row (sinf cosf : ℚ → ℚ)
    (staging : List Obs) (cutoff : DT) (i : ℕ)
    (hi : i < (trainBase staging cutoff).length) :
    ((build_train_frame sinf cosf staging cutoff).getD i dummyTrainRow).roll_mean_24 =
      (if 23 ≤ i then
        some (listMean ((List.range (min (i + 1) 24)).map
          (fun j => tempAt (trainBase staging cutoff) (i + 1 - min (i + 1) 24 + j))))
       else none) ∧
    ((build_train_frame sinf cosf staging cutoff).getD i dummyTrainRow).roll_mean_168 =
      (if 23 ≤ i then
        some (listMean ((List.range (min (i + 1) 168)).map
          (fun j => tempAt (trainBase staging cutoff) (i + 1 - min (i + 1) 168 + j))))
       else none) ∧
    ((build_train_frame sinf cosf staging cutoff).getD i dummyTrainRow).roll_var_24 =
      (if 23 ≤ i then
        some (listVarSample ((List.range (min (i + 1) 24)).map
          (fun j => tempAt (trainBase staging cutoff) (i + 1 - min (i + 1) 24 + j))))
       else none) ∧
    ((build_train_frame sinf cosf staging cutoff).getD i dummyTrainRow).roll_var_168 =
      (if 23 ≤ i then
        some (listVarSample ((List.range (min (i + 1) 168)).map
          (fun j => tempAt (trainBase staging cutoff) (i + 1 - min (i + 1) 168 + j))))
       else none) := by
  have hrow : (build_train_frame sinf cosf staging cutoff).getD i dummyTrainRow =
      mkTrainRow sinf cosf (trainBase staging cutoff) i := by
    unfold build_train_frame
    rw [List.getD_eq_getElem _ _ (by simpa using hi)]
    rw [List.getElem_map, List.getElem_range]
  have hwin24 := rollWindow_eq_range_map (trainBase staging cutoff) 24 i hi
  have hwin168 := rollWindow_eq_range_map (trainBase staging cutoff) 168 i hi
  have hlen24 : (rollWindow (trainBase staging cutoff) 24 i).length = min (i + 1) 24 := by
    simp only [rollWindow, List.length_map, List.length_drop, List.length_take]
    omega
  have hlen168 : (rollWindow (trainBase staging cutoff) 168 i).length = min (i + 1) 168 := by
    simp only [rollWindow, List.length_map, List.length_drop, List.length_take]
    omega
  rw [hrow]
  unfold mkTrainRow rollMeanCol rollVarCol
  dsimp only
  rw [hlen24, hlen168, hwin24, hwin168]
  refine ⟨?_, ?_, ?_, ?_⟩ <;>
    · split_ifs <;> first | rfl | omega

/-- Witness for C2's amended statement at the ramp table, row 23. -/
theorem train_rolling_window_ends_at_current_row_witness :
    ((build_train_frame (fun _ => 0) (fun _ => 0) rampStaging24
        ⟨2030, 1, 1, 0, 0⟩).getD 23 dummyTrainRow).roll_mean_24 =
      (if 23 ≤ 23 then
        some (listMean ((List.range (min (23 + 1) 24)).map
          (fun j => tempAt (trainBase rampStaging24 ⟨2030, 1, 1, 0, 0⟩)
            (23 + 1 - min (23 + 1) 24 + j))))
       else none) :=
  (train_rolling_window_ends_at_current_row (fun _ => 0) (fun _ => 0) rampStaging24
    ⟨2030, 1, 1, 0, 0⟩ 23 (by decide)).1

-- ======================================================================
-- C4: make_year_chunks partitions the date range by calendar year
-- ======================================================================

theorem absMin_midnight (t : DT) (h0 : t.hour = 0) (h1 : t.minute = 0) :
    absMin t = absDay t * 1440 := by
  unfold absMin
  rw [h0, h1]
  ring

theorem absDay_jan1 (y : ℕ) : absDay (mkDate y 1 1) = 365 * y + leapsBefore y := by
  unfold absDay mkDate dayOfYear monthPrefixDays
  norm_num

theorem absDay_dec31 (y : ℕ) :
    absDay (mkDate y 12 31) = 365 * y + leapsBefore y + daysInYear y - 1 := by
  unfold absDay mkDate dayOfYear monthPrefixDays daysInYear
  split_ifs <;> simp_all

theorem mkDate_jan1_valid (y : ℕ) : (mkDate y 1 1).Valid := by
  unfold mkDate DT.Valid daysInMonth
  norm_num

theorem mkDate_dec31_valid (y : ℕ) : (mkDate y 12 31).Valid := by
  unfold mkDate DT.Valid daysInMonth
  norm_num

theorem jan1_mono {y y' : ℕ} (h : y ≤ y') :
    365 * y + leapsBefore y ≤ 365 * y' + leapsBefore y' := by
  induction y' with
  | zero => simp_all
  | succ z ih =>
    rcases Nat.lt_or_ge y (z + 1) with hy | hy
    · have := ih (by omega)
      rw [leapsBefore_succ]
      split_ifs <;> omega
    · have hy' : y = z + 1 := by omega
      subst hy'
      exact le_refl _

theorem dec31_succ_jan1 (y : ℕ) :
    absDay (mkDate y 12 31) + 1 = absDay (mkDate (y + 1) 1 1) := by
  rw [absDay_dec31, absDay_jan1, leapsBefore_succ]
  unfold daysInYear
  split_ifs <;> omega

theorem absDay_within_year {x : DT} (hx : x.Valid) :
    absDay (mkDate x.year 1 1) ≤ absDay x ∧ absDay x ≤ absDay (mkDate x.year 12 31) := by
  rw [absDay_jan1, absDay_dec31]
  have hb := dayOfYear_bounds hx
  unfold absDay
  omega

theorem absDay_year_mono {x x' : DT} (hx : x.Valid) (hx' : x'.Valid)
    (h : x.year < x'.year) : absDay x < absDay x' := by
  have h1 := (absDay_within_year hx).2
  have h2 := (absDay_within_year hx').1
  have h3 := dec31_succ_jan1 x.year
  have h4 : 365 * (x.year + 1) + leapsBefore (x.year + 1) ≤
      365 * x'.year + leapsBefore x'.year := jan1_mono (by omega)
  rw [absDay_jan1] at h2 h3
  omega

theorem year_eq_of_between {x : DT} {y : ℕ} (hx : x.Valid)
    (h1 : absDay (mkDate y 1 1) ≤ absDay x) (h2 : absDay x ≤ absDay (mkDate y 12 31)) :
    x.year = y := by
  rcases Nat.lt_trichotomy x.year y with hy | hy | hy
  · exfalso
    have ha := (absDay_within_year hx).2
    have hb := dec31_succ_jan1 x.year
    have hc : 365 * (x.year + 1) + leapsBefore (x.year + 1) ≤
        365 * y + leapsBefore y := jan1_mono (by omega)
    rw [absDay_jan1] at h1 hb
    omega
  · exact hy
  · exfalso
    have ha := (absDay_within_year hx).1
    have hb := dec31_succ_jan1 y
    have hc : 365 * (y + 1) + leapsBefore (y + 1) ≤
        365 * x.year + leapsBefore x.year := jan1_mono (by omega)
    rw [absDay_jan1] at ha hb
    omega

theorem tle_iff (a b : DT) : tle a b = true ↔ absMin a ≤ absMin b := by
  unfold tle
  exact decide_eq_true_iff

theorem tle_trans {a b c : DT} (h1 : tle a b = true) (h2 : tle b c = true) :
    tle a c = true := by
  rw [tle_iff] at *
  omega

theorem tle_tsMax_left (a b : DT) : tle a (tsMax a b) = true := by
  unfold tsMax
  split_ifs with h
  · rw [tle_iff]
  · rw [tle_iff] at *
    omega

theorem tle_tsMax_right (a b : DT) : tle b (tsMax a b) = true := by
  unfold tsMax
  split_ifs with h
  · exact h
  · rw [tle_iff]

theorem tsMax_le {a b c : DT} (h1 : tle a c = true) (h2 : tle b c = true) :
    tle (tsMax a b) c = true := by
  unfold tsMax
  split_ifs <;> assumption

theorem tle_tsMin_left (a b : DT) : tle (tsMin a b) a = true := by
  unfold tsMin
  split_ifs with h
  · rw [tle_iff]
  · rw [tle_iff] at *
    omega

theorem tle_tsMin_right (a b : DT) : tle (tsMin a b) b = true := by
  unfold tsMin
  split_ifs with h
  · exact h
  · rw [tle_iff]

theorem le_tsMin {a b c : DT} (h1 : tle c a = true) (h2 : tle c b = true) :
    tle c (tsMin a b) = true := by
  unfold tsMin
  split_ifs <;> assumption

theorem make_year_chunks_ts_get (start stop : DT) (k : ℕ)
    (hk : k < (make_year_chunks_ts start stop).length) :
    (make_year_chunks_ts start stop).get ⟨k, hk⟩ =
      (tsMax start (mkDate (start.year + k) 1 1),
       tsMin stop (mkDate (start.year + k) 12 31)) := by
  unfold make_year_chunks_ts at hk ⊢
  rw [List.get_eq_getElem, List.getElem_map, List.getElem_range]

theorem tle_midnight_iff {a b : DT} (ha0 : a.hour = 0) (ha1 : a.minute = 0)
    (hb0 : b.hour = 0) (hb1 : b.minute = 0) :
    tle a b = true ↔ absDay a ≤ absDay b := by
  rw [tle_iff, absMin_midnight a ha0 ha1, absMin_midnight b hb0 hb1]
  omega

theorem make_year_chunks_ts_length (start stop : DT) :
    (make_year_chunks_ts start stop).length = stop.year + 1 - start.year := by
  simp [make_year_chunks_ts]

/-- C4: for every valid midnight date range `start ≤ stop`, the chunker
yields one pair per calendar year from `start.year` to `stop.year`, each
pair clipped inside both its year and the original range; a valid midnight
date lies in the range exactly when it is covered by some chunk, and by at
most one chunk (no gaps, no overlaps); and the configured scenario
2024-01-01..2025-09-16 yields exactly the two expected date-string chunks. -/
theorem make_year_chunks_partitions_range :
    (∀ start stop : DT, start.Valid → stop.Valid →
      start.hour = 0 → start.minute = 0 → stop.hour = 0 → stop.minute = 0 →
      tle start stop = true →
      ((make_year_chunks_ts start stop).length = stop.year + 1 - start.year) ∧
      (∀ k, ∀ hk : k < (make_year_chunks_ts start stop).length,
        tle start ((make_year_chunks_ts start stop).get ⟨k, hk⟩).1 = true ∧
        tle (mkDate (start.year + k) 1 1)
          ((make_year_chunks_ts start stop).get ⟨k, hk⟩).1 = true ∧
        tle ((make_year_chunks_ts start stop).get ⟨k, hk⟩).2 stop = true ∧
        tle ((make_year_chunks_ts start stop).get ⟨k, hk⟩).2
          (mkDate (start.year + k) 12 31) = true) ∧
      (∀ x : DT, x.Valid → x.hour = 0 → x.minute = 0 →
        ((tle start x = true ∧ tle x stop = true) ↔
          ∃ k, ∃ hk : k < (make_year_chunks_ts start stop).length,
            tle ((make_year_chunks_ts start stop).get ⟨k, hk⟩).1 x = true ∧
            tle x ((make_year_chunks_ts start stop).get ⟨k, hk⟩).2 = true) ∧
        (∀ k k' (hk : k < (make_year_chunks_ts start stop).length)
          (hk' : k' < (make_year_chunks_ts start stop).length),
          (tle ((make_year_chunks_ts start stop).get ⟨k, hk⟩).1 x = true ∧
            tle x ((make_year_chunks_ts start stop).get ⟨k, hk⟩).2 = true) →
          (tle ((make_year_chunks_ts start stop).get ⟨k', hk'⟩).1 x = true ∧
            tle x ((make_year_chunks_ts start stop).get ⟨k', hk'⟩).2 = true) →
          k = k'))) ∧
    make_year_chunks (mkDate 2024 1 1) (mkDate 2025 9 16) =
      [("2024-01-01", "2024-12-31"), ("2025-01-01", "2025-09-16")] := by
  constructor
  · intro start stop hvs hvt hs0 hs1 ht0 ht1 hse
    have key : ∀ x : DT, x.Valid → x.hour = 0 → x.minute = 0 → ∀ k : ℕ,
        ((tle (tsMax start (mkDate (start.year + k) 1 1)) x = true ∧
          tle x (tsMin stop (mkDate (start.year + k) 12 31)) = true) ↔
         (x.year = start.year + k ∧ tle start x = true ∧ tle x stop = true)) := by
      intro x hxv hx0 hx1 k
      constructor
      · rintro ⟨hc1, hc2⟩
        have hsx : tle start x = true := tle_trans (tle_tsMax_left _ _) hc1
        have hJx : tle (mkDate (start.year + k) 1 1) x = true :=
          tle_trans (tle_tsMax_right _ _) hc1
        have hxs : tle x stop = true := tle_trans hc2 (tle_tsMin_left _ _)
        have hxD : tle x (mkDate (start.year + k) 12 31) = true :=
          tle_trans hc2 (tle_tsMin_right _ _)
        have h1 : absDay (mkDate (start.year + k) 1 1) ≤ absDay x :=
          (tle_midnight_iff rfl rfl hx0 hx1).mp hJx
        have h2 : absDay x ≤ absDay (mkDate (start.year + k) 12 31) :=
          (tle_midnight_iff hx0 hx1 rfl rfl).mp hxD
        exact ⟨year_eq_of_between hxv h1 h2, hsx, hxs⟩
      · rintro ⟨hy, hsx, hxs⟩
        have hwy := absDay_within_year hxv
        rw [hy] at hwy
        have hJx : tle (mkDate (start.year + k) 1 1) x = true :=
          (tle_midnight_iff rfl rfl hx0 hx1).mpr hwy.1
        have hxD : tle x (mkDate (start.year + k) 12 31) = true :=
          (tle_midnight_iff hx0 hx1 rfl rfl).mpr hwy.2
        exact ⟨tsMax_le hsx hJx, le_tsMin hxs hxD⟩
    have hyearle : ∀ x : DT, x.Valid → x.hour = 0 → x.minute = 0 →
        tle start x = true → tle x stop = true →
        start.year ≤ x.year ∧ x.year ≤ stop.year := by
      intro x hxv hx0 hx1 hsx hxs
      constructor
      · by_contra hlt
        have hmono : absDay x < absDay start := absDay_year_mono hxv hvs (by omega)
        have := (tle_midnight_iff hs0 hs1 hx0 hx1).mp hsx
        omega
      · by_contra hlt
        have hmono : absDay stop < absDay x := absDay_year_mono hvt hxv (by omega)
        have := (tle_midnight_iff hx0 hx1 ht0 ht1).mp hxs
        omega
    refine ⟨make_year_chunks_ts_length start stop, ?_, ?_⟩
    · intro k hk
      rw [make_year_chunks_ts_get]
      exact ⟨tle_tsMax_left _ _, tle_tsMax_right _ _,
        tle_tsMin_left _ _, tle_tsMin_right _ _⟩
    · intro x hxv hx0 hx1
      constructor
      · constructor
        · rintro ⟨hsx, hxs⟩
          obtain ⟨hy1, hy2⟩ := hyearle x hxv hx0 hx1 hsx hxs
          refine ⟨x.year - start.year, ?_, ?_⟩
          · rw [make_year_chunks_ts_length]
            omega
          · rw [make_year_chunks_ts_get]
            exact (key x hxv hx0 hx1 (x.year - start.year)).mpr ⟨by omega, hsx, hxs⟩
        · rintro ⟨k, hk, hc⟩
          rw [make_year_chunks_ts_get] at hc
          have := (key x hxv hx0 hx1 k).mp hc
          exact ⟨this.2.1, this.2.2⟩
      · intro k k' hk hk' h1 h2
        rw [make_year_chunks_ts_get] at h1 h2
        have e1 := ((key x hxv hx0 hx1 k).mp h1).1
        have e2 := ((key x hxv hx0 hx1 k').mp h2).1
        omega
  · decide

/-- Witness for C4: the configured 2024-01-01..2025-09-16 range, with the
date 2025-01-01 covered by (exactly) the second chunk. -/
theorem make_year_chunks_partitions_range_witness :
    ∃ k, ∃ hk : k < (make_year_chunks_ts (mkDate 2024 1 1) (mkDate 2025 9 16)).length,
      tle ((make_year_chunks_ts (mkDate 2024 1 1) (mkDate 2025 9 16)).get
        ⟨k, hk⟩).1 (mkDate 2025 1 1) = true ∧
      tle (mkDate 2025 1 1) ((make_year_chunks_ts (mkDate 2024 1 1)
        (mkDate 2025 9 16)).get ⟨k, hk⟩).2 = true :=
  (((make_year_chunks_partitions_range.1 (mkDate 2024 1 1) (mkDate 2025 9 16)
      (by decide) (by decide) rfl rfl rfl rfl (by decide)).2.2
    (mkDate 2025 1 1) (by decide) rfl rfl).1).mp ⟨by decide, by decide⟩

-- ======================================================================
-- C1: training lags reach back exactly L hours
-- ======================================================================

theorem timeAt_eq_getElem (b : List Obs) (i : ℕ) (hi : i < b.length) :
    timeAt b i = b[i].time := by
  unfold timeAt
  rw [List.getD_eq_getElem b _ hi]

/-- On a list whose earlier rows satisfy the predicate whenever a later row
does, `filter` coincides with `takeWhile`. -/
theorem filter_eq_takeWhile_of_anti {p : Obs → Bool} :
    ∀ {l : List Obs}, l.Pairwise (fun a b => p b = true → p a = true) →
      l.filter p = l.takeWhile p := by
  intro l hp
  induction l with
  | nil => rfl
  | cons x xs ih =>
    rw [List.pairwise_cons] at hp
    by_cases hx : p x = true
    · rw [List.filter_cons_of_pos hx, List.takeWhile_cons_of_pos hx, ih hp.2]
    · rw [List.filter_cons_of_neg (by simpa using hx),
        List.takeWhile_cons_of_neg (by simpa using hx)]
      exact List.filter_eq_nil_iff.mpr (fun b hb hpb => hx (hp.1 b hb hpb))

/-- Along an hourly chain, the row `k` positions later is exactly `k` hours
later. -/
theorem chain_addHours_get (l : List Obs)
    (hc : List.Chain' (fun a b : Obs => b.time = addHour a.time) l) :
    ∀ i k : ℕ, ∀ h : i + k < l.length,
      (l.get ⟨i + k, h⟩).time = addHours k ((l.get ⟨i, by omega⟩).time) := by
  intro i k
  induction k with
  | zero => intro h; rfl
  | succ m ih =>
    intro h
    have hm : i + m < l.length - 1 := by omega
    have hstep := List.chain'_iff_get.mp hc (i + m) hm
    have hs2 : (l.get ⟨i + (m + 1), h⟩).time = addHour ((l.get ⟨i + m, by omega⟩).time) :=
      hstep
    rw [hs2, ih (by omega)]
    show addHour (addHours m _) = addHours (m + 1) _
    unfold addHours
    rw [Function.iterate_succ_apply']

/-- C1: on a staging table of strictly hourly consecutive valid timestamps,
every row retained by `build_train_features` carries, for each configured
lag offset L ∈ {1, 24, 48, 72, 168}, a `temp_lag_L` equal to the observed
temperature of the staging row exactly L hours earlier (the lag columns are
positional shifts, which under hourly cadence reach back exactly L hours). -/
theorem build_train_lags_reach_back_exactly (sinf cosf : ℚ → ℚ)
    (staging : List Obs) (cutoff : DT) (out : List TrainRow)
    (hv : ∀ r ∈ staging, r.time.Valid)
    (hc : List.Chain' (fun a b : Obs => b.time = addHour a.time) staging)
    (h2 : build_train_features sinf cosf staging cutoff = Except.ok out) :
    ∀ r ∈ out, ∀ L ∈ [1, 24, 48, 72, 168],
      ∃ s ∈ staging, addHours L s.time = r.time ∧ lagCol r L = some s.temp_obs := by
  -- the sorted table is the table itself
  have hlt : List.Chain' (fun a b : Obs => absMin a.time < absMin b.time) staging := by
    rw [List.chain'_iff_get] at hc ⊢
    intro i hi
    have hstep := hc i hi
    have hval : (staging.get ⟨i, by omega⟩).time.Valid :=
      hv _ (List.get_mem staging i _)
    have := (absMin_addHour hval).2
    rw [hstep, this]
    omega
  haveI : IsTrans Obs (fun a b : Obs => absMin a.time < absMin b.time) :=
    ⟨fun a b c h1 h2 => lt_trans h1 h2⟩
  have hplt : staging.Pairwise (fun a b : Obs => absMin a.time < absMin b.time) :=
    List.chain'_iff_pairwise.mp hlt
  have hsorted : List.Pairwise (fun a b : Obs => tle a.time b.time = true) staging :=
    hplt.imp (fun hab => by rw [tle_iff]; omega)
  have hsort : sortByTime staging = staging :=
    List.Sorted.insertionSort_eq hsorted
  -- the clipped base table is a prefix of staging
  have hanti : staging.Pairwise
      (fun a b : Obs => tle b.time cutoff = true → tle a.time cutoff = true) :=
    hsorted.imp (fun hab hbc => tle_trans hab hbc)
  have hbase : trainBase staging cutoff =
      staging.takeWhile (fun r => tle r.time cutoff) := by
    unfold trainBase
    rw [hsort]
    exact filter_eq_takeWhile_of_anti hanti
  have hprefix : (staging.takeWhile (fun r => tle r.time cutoff)) <+: staging :=
    List.takeWhile_prefix _
  have hbchain : List.Chain' (fun a b : Obs => b.time = addHour a.time)
      (trainBase staging cutoff) := by
    rw [hbase]
    exact hc.prefix hprefix
  have hbsub : ∀ s ∈ trainBase staging cutoff, s ∈ staging := by
    intro s hs
    rw [hbase] at hs
    exact hprefix.subset hs
  -- invert the build
  have hout : out = (build_train_frame sinf cosf staging cutoff).filter trainRowComplete := by
    unfold build_train_features at h2
    cases hch : check_hourly (sortByTime staging) with
    | error e =>
      rw [hch] at h2
      exact absurd h2 (by simp)
    | ok u =>
      cases u
      rw [hch] at h2
      by_cases he : (trainBase staging cutoff).isEmpty
      · rw [if_pos he] at h2
        exact absurd h2 (by simp)
      · rw [if_neg he] at h2
        exact (Except.ok.inj h2).symm
  -- a retained row is a frame row with all lag columns present
  intro r hr L hL
  rw [hout] at hr
  obtain ⟨hrf, hcompl⟩ := List.mem_filter.mp hr
  unfold build_train_frame at hrf
  obtain ⟨i, hi_mem, hieq⟩ := List.mem_map.mp hrf
  have hi : i < (trainBase staging cutoff).length := List.mem_range.mp hi_mem
  subst hieq
  -- all lag offsets fit below the row index
  have h168 : 168 ≤ i := by
    by_contra hlt168
    unfold trainRowComplete at hcompl
    simp only [Bool.and_eq_true] at hcompl
    have h5 : (mkTrainRow sinf cosf (trainBase staging cutoff) i).temp_lag_168.isSome =
        true := hcompl.1.1.1.1.1.2
    unfold mkTrainRow at h5
    dsimp only at h5
    unfold shiftCol at h5
    rw [if_neg hlt168] at h5
    simp at h5
  -- the generic conclusion for one lag offset
  have hgen : ∀ M : ℕ, M ≤ i →
      ∃ s ∈ staging,
        addHours M s.time = (mkTrainRow sinf cosf (trainBase staging cutoff) i).time ∧
        shiftCol (trainBase staging cutoff) M i = some s.temp_obs := by
    intro M hMi
    have hiM : i - M + M = i := by omega
    refine ⟨(trainBase staging cutoff).get ⟨i - M, by omega⟩,
      hbsub _ (List.get_mem _ _ _), ?_, ?_⟩
    · have hrel := chain_addHours_get (trainBase staging cutoff) hbchain (i - M) M
        (by omega)
      have hidx : ((trainBase staging cutoff).get ⟨i - M + M, by omega⟩) =
          ((trainBase staging cutoff).get ⟨i, hi⟩) := by
        congr 1
        exact Fin.ext hiM
      rw [hidx] at hrel
      show addHours M _ = timeAt (trainBase staging cutoff) i
      rw [timeAt_eq_getElem _ _ hi, ← hrel]
      rfl
    · unfold shiftCol
      rw [if_pos hMi, tempAt_eq_getElem _ _ (by omega : i - M < (trainBase staging cutoff).length)]
      rfl
  -- dispatch the five configured lags
  simp only [List.mem_cons, List.not_mem_nil, or_false] at hL
  rcases hL with rfl | rfl | rfl | rfl | rfl
  · obtain ⟨s, hs, hts, hvs'⟩ := hgen 1 (by omega)
    exact ⟨s, hs, hts, hvs'⟩
  · obtain ⟨s, hs, hts, hvs'⟩ := hgen 24 (by omega)
    exact ⟨s, hs, hts, hvs'⟩
  · obtain ⟨s, hs, hts, hvs'⟩ := hgen 48 (by omega)
    exact ⟨s, hs, hts, hvs'⟩
  · obtain ⟨s, hs, hts, hvs'⟩ := hgen 72 (by omega)
    exact ⟨s, hs, hts, hvs'⟩
  · obtain ⟨s, hs, hts, hvs'⟩ := hgen 168 (by omega)
    exact ⟨s, hs, hts, hvs'⟩

/-- A 169-row strictly hourly staging table starting 2024-01-01 00:00. -/
def hourlyStaging169 : List Obs :=
  (List.range 169).map (fun k => ⟨addHours k ⟨2024, 1, 1, 0, 0⟩, (k : ℚ)⟩)

theorem headD_mem_of_ne_nil {α : Type} (l : List α) (d : α) (h : l ≠ []) :
    l.headD d ∈ l := by
  cases l with
  | nil => exact absurd rfl h
  | cons a as => exact List.mem_cons_self a as

set_option maxRecDepth 20000 in
/-- Witness for C1: on the concrete 169-row hourly table, the single
retained row's `temp_lag_24` is the observed temperature of the staging row
exactly 24 hours earlier. -/
theorem build_train_lags_reach_back_exactly_witness :
    ∃ s ∈ hourlyStaging169,
      addHours 24 s.time =
        (((build_train_frame (fun _ => 0) (fun _ => 0) hourlyStaging169
          ⟨2030, 1, 1, 0, 0⟩).filter trainRowComplete).headD dummyTrainRow).time ∧
      lagCol (((build_train_frame (fun _ => 0) (fun _ => 0) hourlyStaging169
          ⟨2030, 1, 1, 0, 0⟩).filter trainRowComplete).headD dummyTrainRow) 24 =
        some s.temp_obs := by
  have hne : ((build_train_frame (fun _ => 0) (fun _ => 0) hourlyStaging169
      ⟨2030, 1, 1, 0, 0⟩).filter trainRowComplete) ≠ [] := by decide
  have hmem := headD_mem_of_ne_nil _ dummyTrainRow hne
  have hchain : List.Chain' (fun a b : Obs => b.time = addHour a.time) hourlyStaging169 :=
    ((chainB_iff_chain' (fun a b : Obs => b.time == addHour a.time)
      hourlyStaging169).mp (by decide)).imp (fun a b h => beq_iff_eq.mp h)
  exact build_train_lags_reach_back_exactly (fun _ => 0) (fun _ => 0) hourlyStaging169
    ⟨2030, 1, 1, 0, 0⟩ _ (by decide) hchain rfl _ hmem 24 (by decide)
